import Mathlib

/-
Verification of the pool implementation in pair.go of klim0v/go-uniswapV2.

The embedding below translates the Go source directly:
  * big.Int values become ℤ; big.Int.Div is Euclidean division, which `/` on ℤ
    also is; big.Int.Sqrt is the floor square root, Int.sqrt.
  * the Go map[Address]*big.Int becomes an association list, where an absent
    key models a nil map entry (distinct from a stored zero).
  * operations that the Go code lets reach a run-time panic (nil big.Int
    dereference, negative Sqrt argument, zero divisor) return Outcome.crash;
    a panic aborts before any reserve, supply or balance field is written.
  * the registry map from pairKey to *Pair becomes a list of keys paired with
    indices into an allocation store, so pointer identity (two views backed by
    one record) is index equality.
-/

/-- Errors returned by the pool and registry operations (the error variables of
pair.go). -/
inductive UniswapError where
  | identicalAddresses
  | pairExists
  | insufficientLiquidityMinted
  | insufficientLiquidityBurned
  | insufficientLiquidity
  | k
  | insufficientInputAmount
  | insufficientOutputAmount
deriving DecidableEq

/-- Result of an operation: a value, a typed error, or a run-time crash
(Go panic). -/
inductive Outcome (α : Type) where
  | ok : α → Outcome α
  | err : UniswapError → Outcome α
  | crash : Outcome α
deriving DecidableEq

/-- Token identifiers (type Token int32 in the source), modelled as integers
with their total order. -/
abbrev Token := ℤ

/-- Holder addresses (type Address string in the source). -/
abbrev Address := String

/-- Sentinel zero address (const addressZero Address = the empty string). -/
def addressZero : Address := ""

/-- Minimum liquidity constant (const minimumLiquidity int64 = 1000). -/
def minimumLiquidity : ℤ := 1000

/-- State of one pool record: the pairData fields reserve0, reserve1,
totalSupply plus the holder balance map. -/
structure Pair where
  reserve0 : ℤ
  reserve1 : ℤ
  totalSupply : ℤ
  balances : List (Address × ℤ)
deriving DecidableEq

/-- Zero-initialized pool record, as allocated by CreatePair. -/
def zeroPair : Pair :=
  { reserve0 := 0, reserve1 := 0, totalSupply := 0, balances := [] }

/-- Balance-map lookup; none models a nil map entry in Go. -/
def lookupBal : List (Address × ℤ) → Address → Option ℤ
  | [], _ => none
  | (b, w) :: t, a => if b = a then some w else lookupBal t a

/-- Balance-map write, inserting the key when absent. -/
def setBal : List (Address × ℤ) → Address → ℤ → List (Address × ℤ)
  | [], a, v => [(a, v)]
  | (b, w) :: t, a, v => if b = a then (b, v) :: t else (b, w) :: setBal t a v

/-- Sum of all stored balances (absent entries count as zero). -/
def sumBal : List (Address × ℤ) → ℤ
  | [] => 0
  | (_, v) :: t => v + sumBal t

/-- Internal mint (func mint of pair.go): totalSupply += value and
balances[address] += value, creating the entry at zero when absent. -/
def Pair.mint (p : Pair) (address : Address) (value : ℤ) : Pair :=
  { p with
    totalSupply := p.totalSupply + value
    balances := setBal p.balances address ((lookupBal p.balances address).getD 0 + value) }

/-- Internal burn (func burn of pair.go): balances[address] -= value and
totalSupply -= value; only called with an existing entry. -/
def Pair.burn (p : Pair) (address : Address) (value : ℤ) : Pair :=
  { p with
    totalSupply := p.totalSupply - value
    balances := setBal p.balances address ((lookupBal p.balances address).getD 0 - value) }

/-- Reserve update (func update of pair.go): reserve0 += amount0 and
reserve1 += amount1, amounts may be negative. -/
def Pair.update (p : Pair) (amount0 amount1 : ℤ) : Pair :=
  { p with reserve0 := p.reserve0 + amount0, reserve1 := p.reserve1 + amount1 }

/-- Balance (func Balance of pair.go): nil for an unseen address, otherwise a
fresh copy of the stored balance (new(big.Int).Set(balance) in the source). -/
def Pair.Balance (p : Pair) (address : Address) : Option ℤ :=
  match lookupBal p.balances address with
  | none => none
  | some balance => some balance

/-- Amounts (func Amounts of pair.go): floor(liquidity*reserve_i/totalSupply)
per side. big.Int Div panics on a zero divisor; Pair.Burn models that case
explicitly before this is evaluated. -/
def Pair.Amounts (p : Pair) (liquidity : ℤ) : ℤ × ℤ :=
  (liquidity * p.reserve0 / p.totalSupply, liquidity * p.reserve1 / p.totalSupply)

/-- First-deposit supply (func startingSupply of pair.go):
floor(sqrt(amount0*amount1)) - minimumLiquidity. big.Int Sqrt panics on a
negative argument; Pair.Mint models that case explicitly. -/
def startingSupply (amount0 amount1 : ℤ) : ℤ :=
  Int.sqrt (amount0 * amount1) - minimumLiquidity

/-- Mint (func Mint of pair.go). In the totalSupply non-zero branch the source
declares a new local variable that shadows the named return value liquidity,
so the named return stays nil and the following p.mint(address, liquidity)
dereferences a nil big.Int: every Mint on a pool with non-zero totalSupply
panics at run time (when reserve0 or reserve1 is zero it panics slightly
earlier, on a zero division). Both are modelled as Outcome.crash, reached
before any state is written. -/
def Pair.Mint (p : Pair) (address : Address) (amount0 amount1 : ℤ) : Outcome (Pair × ℤ) :=
  if p.totalSupply = 0 then
    if amount0 * amount1 < 0 then .crash
    else
      let liquidity := startingSupply amount0 amount1
      if ¬ 0 < liquidity then .err .insufficientLiquidityMinted
      else
        .ok (((p.mint addressZero minimumLiquidity).mint address liquidity).update amount0 amount1,
             liquidity)
  else
    .crash

/-- Burn (func Burn of pair.go). Cmp(balance) == 1 is "greater than balance";
Sign() != 1 is "not positive". The totalSupply = 0 case models the zero-divisor
panic inside p.Amounts. -/
def Pair.Burn (p : Pair) (address : Address) (liquidity : ℤ) : Outcome (Pair × ℤ × ℤ) :=
  match p.Balance address with
  | none => .err .insufficientLiquidityBurned
  | some balance =>
    if balance < liquidity then .err .insufficientLiquidityBurned
    else if p.totalSupply = 0 then .crash
    else
      let amount0 := (p.Amounts liquidity).1
      let amount1 := (p.Amounts liquidity).2
      if ¬ 0 < amount0 ∨ ¬ 0 < amount1 then .err .insufficientLiquidityBurned
      else .ok ((p.burn address liquidity).update (-amount0) (-amount1), amount0, amount1)

/-- Swap (func Swap of pair.go). Sign() != 1 is "not positive"; Cmp(x) == 1 is
"greater than x". -/
def Pair.Swap (p : Pair) (amount0In amount1In amount0Out amount1Out : ℤ) :
    Outcome (Pair × ℤ × ℤ) :=
  if ¬ 0 < amount0Out ∧ ¬ 0 < amount1Out then .err .insufficientOutputAmount
  else if p.reserve0 < amount0Out ∨ p.reserve1 < amount1Out then .err .insufficientLiquidity
  else
    let amount0 := amount0In - amount0Out
    let amount1 := amount1In - amount1Out
    if ¬ 0 < amount0 ∧ ¬ 0 < amount1 then .err .insufficientInputAmount
    else
      let balance0Adjusted := (amount0 + p.reserve0) * 1000 - amount0In * 3
      let balance1Adjusted := (amount1 + p.reserve1) * 1000 - amount1In * 3
      if balance0Adjusted * balance1Adjusted < p.reserve0 * p.reserve1 * 1000000 then .err .k
      else .ok (p.update amount0 amount1, amount0, amount1)

/-- Key of an unordered token pair (type pairKey of pair.go). -/
structure pairKey where
  TokenA : Token
  TokenB : Token
deriving DecidableEq

/-- isSorted (method of pairKey): TokenA < TokenB. -/
def pairKey.isSorted (pk : pairKey) : Bool := decide (pk.TokenA < pk.TokenB)

/-- Revert (method of pairKey): swap the two tokens. -/
def pairKey.Revert (pk : pairKey) : pairKey :=
  { TokenA := pk.TokenB, TokenB := pk.TokenA }

/-- sort (method of pairKey): canonical form with the smaller token first. -/
def pairKey.sort (pk : pairKey) : pairKey := if pk.isSorted then pk else pk.Revert

/-- Registry state (struct UniswapV2 of pair.go): the pair map (with pointer
identity modelled as indices into the allocation store) and the
creation-ordered key list. -/
structure UniswapV2 where
  pairs : List (pairKey × Nat)
  store : List Pair
  keyPairs : List pairKey
deriving DecidableEq

/-- Fresh registry (func New of pair.go). -/
def New : UniswapV2 := { pairs := [], store := [], keyPairs := [] }

/-- Pair-map lookup; cons-plus-first-match gives Go map overwrite semantics. -/
def lookupKey : List (pairKey × Nat) → pairKey → Option Nat
  | [], _ => none
  | (k, i) :: t, key => if k = key then some i else lookupKey t key

/-- View of a pool record: index of the shared record in the store, and whether
the view presents it with the token0 and token1 sides swapped
(pairData.Revert in the source). -/
abbrev PairView := Nat × Bool

/-- Record lookup (func pair of pair.go): a sorted key is looked up directly and
returned un-reversed; an unsorted key is looked up under its sorted form and the
result is wrapped in a reversed view sharing the same record, lock and balances. -/
def UniswapV2.pair (s : UniswapV2) (key : pairKey) : Option PairView :=
  if key.isSorted then (lookupKey s.pairs key).map (fun i => (i, false))
  else
    match lookupKey s.pairs key.sort with
    | none => none
    | some i => some (i, true)

/-- Pair (func Pair of pair.go). -/
def UniswapV2.Pair (s : UniswapV2) (coinA coinB : Token) : Option PairView :=
  s.pair { TokenA := coinA, TokenB := coinB }

/-- addPair (func addPair of pair.go). On an unsorted key the source evaluates
key.Revert() but discards the returned value (pairKey methods have value
receivers), so the new record is filed under the key exactly as the caller
passed it; only the zero-valued pairData is reverted. A fresh record is always
allocated. -/
def UniswapV2.addPair (s : UniswapV2) (key : pairKey) : UniswapV2 × Nat :=
  ({ s with pairs := (key, s.store.length) :: s.pairs, store := s.store ++ [zeroPair] },
   s.store.length)

/-- addKeyPair (func addKeyPair of pair.go): appends the sorted key to the
creation-ordered list. -/
def UniswapV2.addKeyPair (s : UniswapV2) (key : pairKey) : UniswapV2 :=
  { s with keyPairs := s.keyPairs ++ [key.sort] }

/-- CreatePair (func CreatePair of pair.go). On success the caller receives the
new record, wrapped in a reversed view when the arguments were not in sorted
order. -/
def UniswapV2.CreatePair (s : UniswapV2) (coinA coinB : Token) :
    Outcome (UniswapV2 × PairView) :=
  if coinA = coinB then .err .identicalAddresses
  else
    match s.Pair coinA coinB with
    | some _ => .err .pairExists
    | none =>
      let key : pairKey := { TokenA := coinA, TokenB := coinB }
      let res := s.addPair key
      .ok (res.1.addKeyPair key, (res.2, !key.isSorted))

/-- Swap behaviour exactly as claim C3 words it, in the claim's order of
checks: no positive output; an output exceeding its reserve; no positive net
amount; the fee-adjusted product below reserve0*reserve1*1000000; otherwise
success, adding the two net amounts to the reserves and returning them. -/
def swapAsSpecified (p : Pair) (amount0In amount1In amount0Out amount1Out : ℤ) :
    Outcome (Pair × ℤ × ℤ) :=
  if ¬ 0 < amount0Out ∧ ¬ 0 < amount1Out then .err .insufficientOutputAmount
  else if amount0Out > p.reserve0 ∨ amount1Out > p.reserve1 then .err .insufficientLiquidity
  else if ¬ 0 < amount0In - amount0Out ∧ ¬ 0 < amount1In - amount1Out then
    .err .insufficientInputAmount
  else if ((amount0In - amount0Out + p.reserve0) * 1000 - amount0In * 3) *
        ((amount1In - amount1Out + p.reserve1) * 1000 - amount1In * 3) <
      p.reserve0 * p.reserve1 * 1000000 then .err .k
  else
    .ok ({ p with reserve0 := p.reserve0 + (amount0In - amount0Out),
                  reserve1 := p.reserve1 + (amount1In - amount1Out) },
         amount0In - amount0Out, amount1In - amount1Out)

/-- Property of claim C3 at one input: Swap behaves as the claim words it, and
every accepted swap satisfies the fee-floor inequality with respect to the
pre-trade reserves. -/
def SwapClaim (p : Pair) (amount0In amount1In amount0Out amount1Out : ℤ) : Prop :=
  Pair.Swap p amount0In amount1In amount0Out amount1Out =
      swapAsSpecified p amount0In amount1In amount0Out amount1Out ∧
  ∀ q a0 a1, Pair.Swap p amount0In amount1In amount0Out amount1Out = .ok (q, a0, a1) →
    p.reserve0 * p.reserve1 * 1000000 ≤
      ((a0 + p.reserve0) * 1000 - amount0In * 3) * ((a1 + p.reserve1) * 1000 - amount1In * 3)

/-- Property of claim C5 at one input: Burn fails with
insufficientLiquidityBurned exactly when the address has no balance, the
liquidity exceeds the held balance, or either redeemed amount is non-positive;
it fails with no other error and never crashes; and on success it returns the
floor amounts and performs exactly the stated state change. A failing Burn
returns no new state at all, so reserves, totalSupply and balances are
untouched. -/
def BurnClaim (p : Pair) (address : Address) (liquidity : ℤ) : Prop :=
  (Pair.Burn p address liquidity = .err .insufficientLiquidityBurned ↔
     p.Balance address = none ∨ (p.Balance address).getD 0 < liquidity ∨
     liquidity * p.reserve0 / p.totalSupply ≤ 0 ∨
     liquidity * p.reserve1 / p.totalSupply ≤ 0) ∧
  (∀ e, Pair.Burn p address liquidity = .err e → e = .insufficientLiquidityBurned) ∧
  Pair.Burn p address liquidity ≠ .crash ∧
  ∀ q a0 a1, Pair.Burn p address liquidity = .ok (q, a0, a1) →
    a0 = liquidity * p.reserve0 / p.totalSupply ∧
    a1 = liquidity * p.reserve1 / p.totalSupply ∧
    q.reserve0 = p.reserve0 - a0 ∧ q.reserve1 = p.reserve1 - a1 ∧
    q.totalSupply = p.totalSupply - liquidity ∧
    q.balances = setBal p.balances address ((p.Balance address).getD 0 - liquidity)

/-- Property of claim C4 (amended) at one input: on a pool with zero
totalSupply, Mint fails with insufficientLiquidityMinted exactly when
floor(sqrt(amount0*amount1)) - 1000 is non-positive, never crashes, and on
success returns that liquidity, leaves the zero address holding exactly 1000,
makes totalSupply equal to floor(sqrt(amount0*amount1)) and adds the amounts to
the reserves. -/
def MintFirstClaim (p : Pair) (address : Address) (amount0 amount1 : ℤ) : Prop :=
  (Pair.Mint p address amount0 amount1 = .err .insufficientLiquidityMinted ↔
     Int.sqrt (amount0 * amount1) - 1000 ≤ 0) ∧
  Pair.Mint p address amount0 amount1 ≠ .crash ∧
  ∀ q l, Pair.Mint p address amount0 amount1 = .ok (q, l) →
    l = Int.sqrt (amount0 * amount1) - 1000 ∧
    q.Balance addressZero = some 1000 ∧
    q.totalSupply = Int.sqrt (amount0 * amount1) ∧
    q.reserve0 = p.reserve0 + amount0 ∧ q.reserve1 = p.reserve1 + amount1

/-- One successful pool operation with arbitrary big-integer arguments. -/
inductive Step : Pair → Pair → Prop where
  | mint {p q : Pair} {a : Address} {x y l : ℤ}
      (h : Pair.Mint p a x y = .ok (q, l)) : Step p q
  | burn {p q : Pair} {a : Address} {l a0 a1 : ℤ}
      (h : Pair.Burn p a l = .ok (q, a0, a1)) : Step p q
  | swap {p q : Pair} {i0 i1 o0 o1 a0 a1 : ℤ}
      (h : Pair.Swap p i0 i1 o0 o1 = .ok (q, a0, a1)) : Step p q

/-- Pool states reachable from the zero-initialized record by successful
operations with arbitrary big-integer arguments. -/
inductive Reach : Pair → Prop where
  | init : Reach zeroPair
  | step {p q : Pair} (hp : Reach p) (hs : Step p q) : Reach q

/-- One successful pool operation all of whose integer arguments are
non-negative. -/
inductive StepNN : Pair → Pair → Prop where
  | mint {p q : Pair} {a : Address} {x y l : ℤ} (hx : 0 ≤ x) (hy : 0 ≤ y)
      (h : Pair.Mint p a x y = .ok (q, l)) : StepNN p q
  | burn {p q : Pair} {a : Address} {l a0 a1 : ℤ} (hl : 0 ≤ l)
      (h : Pair.Burn p a l = .ok (q, a0, a1)) : StepNN p q
  | swap {p q : Pair} {i0 i1 o0 o1 a0 a1 : ℤ}
      (h0 : 0 ≤ i0) (h1 : 0 ≤ i1) (h2 : 0 ≤ o0) (h3 : 0 ≤ o1)
      (h : Pair.Swap p i0 i1 o0 o1 = .ok (q, a0, a1)) : StepNN p q

/-- Pool states reachable using only non-negative operation arguments. -/
inductive ReachNN : Pair → Prop where
  | init : ReachNN zeroPair
  | step {p q : Pair} (hp : ReachNN p) (hs : StepNN p q) : ReachNN q

/-- One successful pool operation whose arguments are arbitrary except that a
Burn is not invoked with the zero address. -/
inductive StepNZ : Pair → Pair → Prop where
  | mint {p q : Pair} {a : Address} {x y l : ℤ}
      (h : Pair.Mint p a x y = .ok (q, l)) : StepNZ p q
  | burn {p q : Pair} {a : Address} {l a0 a1 : ℤ} (ha : a ≠ addressZero)
      (h : Pair.Burn p a l = .ok (q, a0, a1)) : StepNZ p q
  | swap {p q : Pair} {i0 i1 o0 o1 a0 a1 : ℤ}
      (h : Pair.Swap p i0 i1 o0 o1 = .ok (q, a0, a1)) : StepNZ p q

/-- Pool states reachable without ever burning from the zero address. -/
inductive ReachNZ : Pair → Prop where
  | init : ReachNZ zeroPair
  | step {p q : Pair} (hp : ReachNZ p) (hs : StepNZ p q) : ReachNZ q

/-- Supply bookkeeping invariant: every stored balance is non-negative and
totalSupply is the sum of the balance map. -/
def SupplyInv (p : Pair) : Prop :=
  (∀ x ∈ p.balances, 0 ≤ x.2) ∧ sumBal p.balances = p.totalSupply

/-- Sample holder address used in concrete runs. -/
def addrA : Address := "a"

/-- Second sample holder address used in concrete runs. -/
def addrB : Address := "b"

/-- Pool after Mint(addrA, 2000, 2000) on a fresh pool. -/
def pairA : Pair :=
  { reserve0 := 2000, reserve1 := 2000, totalSupply := 2000,
    balances := [(addressZero, 1000), (addrA, 1000)] }

/-- Pool after Burn(addressZero, 1000) on pairA. -/
def pairB : Pair :=
  { reserve0 := 1000, reserve1 := 1000, totalSupply := 1000,
    balances := [(addressZero, 0), (addrA, 1000)] }

/-- Pool after the negative-input Swap run on pairA that drives reserve0
negative. -/
def pairC : Pair :=
  { reserve0 := -1, reserve1 := 1001999, totalSupply := 2000,
    balances := [(addressZero, 1000), (addrA, 1000)] }

/-- Pool after Mint(addressZero, 2000, 2000) on a fresh pool. -/
def pairZ : Pair :=
  { reserve0 := 2000, reserve1 := 2000, totalSupply := 2000,
    balances := [(addressZero, 2000)] }

/-- Registry after CreatePair(1, 0) on a fresh registry: the record is filed
under the unsorted key. -/
def regUnsorted : UniswapV2 :=
  { pairs := [({ TokenA := 1, TokenB := 0 }, 0)], store := [zeroPair],
    keyPairs := [{ TokenA := 0, TokenB := 1 }] }

/-- Registry after the duplicate CreatePair(0, 1) following CreatePair(1, 0):
two records now exist for the unordered pair of tokens 0 and 1. -/
def regDup : UniswapV2 :=
  { pairs := [({ TokenA := 0, TokenB := 1 }, 1), ({ TokenA := 1, TokenB := 0 }, 0)],
    store := [zeroPair, zeroPair],
    keyPairs := [{ TokenA := 0, TokenB := 1 }, { TokenA := 0, TokenB := 1 }] }

/-- Registry after CreatePair(0, 1) on a fresh registry (sorted arguments). -/
def regSorted : UniswapV2 :=
  { pairs := [({ TokenA := 0, TokenB := 1 }, 0)], store := [zeroPair],
    keyPairs := [{ TokenA := 0, TokenB := 1 }] }

theorem update_reserve0 (p : Pair) (x y : ℤ) : (p.update x y).reserve0 = p.reserve0 + x := rfl

theorem update_reserve1 (p : Pair) (x y : ℤ) : (p.update x y).reserve1 = p.reserve1 + y := rfl

theorem update_supply (p : Pair) (x y : ℤ) : (p.update x y).totalSupply = p.totalSupply := rfl

theorem update_balances (p : Pair) (x y : ℤ) : (p.update x y).balances = p.balances := rfl

theorem mint_reserve0 (p : Pair) (a : Address) (v : ℤ) : (p.mint a v).reserve0 = p.reserve0 := rfl

theorem mint_reserve1 (p : Pair) (a : Address) (v : ℤ) : (p.mint a v).reserve1 = p.reserve1 := rfl

theorem mint_supply (p : Pair) (a : Address) (v : ℤ) :
    (p.mint a v).totalSupply = p.totalSupply + v := rfl

theorem mint_balances (p : Pair) (a : Address) (v : ℤ) :
    (p.mint a v).balances = setBal p.balances a ((lookupBal p.balances a).getD 0 + v) := rfl

theorem burn_reserve0 (p : Pair) (a : Address) (v : ℤ) : (p.burn a v).reserve0 = p.reserve0 := rfl

theorem burn_reserve1 (p : Pair) (a : Address) (v : ℤ) : (p.burn a v).reserve1 = p.reserve1 := rfl

theorem burn_supply (p : Pair) (a : Address) (v : ℤ) :
    (p.burn a v).totalSupply = p.totalSupply - v := rfl

theorem burn_balances (p : Pair) (a : Address) (v : ℤ) :
    (p.burn a v).balances = setBal p.balances a ((lookupBal p.balances a).getD 0 - v) := rfl

theorem Balance_eq_lookup (p : Pair) (a : Address) : p.Balance a = lookupBal p.balances a := by
  unfold Pair.Balance
  cases lookupBal p.balances a <;> rfl

theorem lookupBal_setBal_self (bs : List (Address × ℤ)) (a : Address) (v : ℤ) :
    lookupBal (setBal bs a v) a = some v := by
  induction bs with
  | nil => simp [setBal, lookupBal]
  | cons hd t ih =>
    obtain ⟨b, w⟩ := hd
    by_cases h : b = a
    · simp [setBal, lookupBal, h]
    · simp [setBal, lookupBal, h, ih]

theorem lookupBal_setBal_ne (bs : List (Address × ℤ)) (a c : Address) (v : ℤ) (h : c ≠ a) :
    lookupBal (setBal bs a v) c = lookupBal bs c := by
  induction bs with
  | nil => simp [setBal, lookupBal, Ne.symm h]
  | cons hd t ih =>
    obtain ⟨b, w⟩ := hd
    by_cases hba : b = a
    · subst hba
      have hbc : ¬ b = c := fun hh => h (hh.symm ▸ rfl)
      simp [setBal, lookupBal, hbc]
    · by_cases hbc : b = c
      · simp [setBal, lookupBal, hba, hbc, h]
      · simp [setBal, lookupBal, hba, hbc, ih]

theorem sumBal_setBal (bs : List (Address × ℤ)) (a : Address) (v : ℤ) :
    sumBal (setBal bs a v) = sumBal bs - (lookupBal bs a).getD 0 + v := by
  induction bs with
  | nil => simp [setBal, sumBal, lookupBal]
  | cons hd t ih =>
    obtain ⟨b, w⟩ := hd
    by_cases h : b = a
    · simp only [setBal, sumBal, lookupBal, if_pos h]
      simp
      ring
    · simp only [setBal, sumBal, lookupBal, if_neg h, ih]
      ring

theorem mem_setBal {bs : List (Address × ℤ)} {a : Address} {v : ℤ} {x : Address × ℤ}
    (hx : x ∈ setBal bs a v) : x ∈ bs ∨ x.2 = v := by
  induction bs with
  | nil =>
    simp [setBal] at hx
    simp [hx]
  | cons hd t ih =>
    obtain ⟨b, w⟩ := hd
    by_cases h : b = a
    · simp only [setBal, if_pos h, List.mem_cons] at hx
      rcases hx with hx | hx
      · right; simp [hx]
      · left; simp [hx]
    · simp only [setBal, if_neg h, List.mem_cons] at hx
      rcases hx with hx | hx
      · left; simp [hx]
      · rcases ih hx with hx2 | hx2
        · left; simp [hx2]
        · right; exact hx2

theorem sumBal_nonneg : ∀ (bs : List (Address × ℤ)), (∀ x ∈ bs, 0 ≤ x.2) → 0 ≤ sumBal bs
  | [], _ => le_refl 0
  | (b, w) :: t, h => by
    have h1 : 0 ≤ w := h (b, w) (by simp)
    have h2 := sumBal_nonneg t (fun x hx => h x (by simp [hx]))
    simp only [sumBal]
    omega

theorem lookup_le_sumBal : ∀ (bs : List (Address × ℤ)) (a : Address) (w : ℤ),
    (∀ x ∈ bs, 0 ≤ x.2) → lookupBal bs a = some w → w ≤ sumBal bs
  | [], a, w, _, hl => by simp [lookupBal] at hl
  | (b, v) :: t, a, w, h, hl => by
    by_cases hba : b = a
    · have hvw : v = w := by simpa [lookupBal, hba] using hl
      have h2 := sumBal_nonneg t (fun x hx => h x (by simp [hx]))
      simp only [sumBal]
      omega
    · have hl2 : lookupBal t a = some w := by simpa [lookupBal, hba] using hl
      have h1 : 0 ≤ v := h (b, v) (by simp)
      have h2 := lookup_le_sumBal t a w (fun x hx => h x (by simp [hx])) hl2
      simp only [sumBal]
      omega

theorem lookup_mem : ∀ (bs : List (Address × ℤ)) (a : Address) (w : ℤ),
    lookupBal bs a = some w → (a, w) ∈ bs
  | [], a, w, hl => by simp [lookupBal] at hl
  | (b, v) :: t, a, w, hl => by
    by_cases hba : b = a
    · have hvw : v = w := by simpa [lookupBal, hba] using hl
      subst hba
      subst hvw
      simp
    · have hl2 : lookupBal t a = some w := by simpa [lookupBal, hba] using hl
      simp [lookup_mem t a w hl2]

theorem lookup_getD_nonneg (bs : List (Address × ℤ)) (a : Address)
    (h : ∀ x ∈ bs, 0 ≤ x.2) : 0 ≤ (lookupBal bs a).getD 0 := by
  cases hl : lookupBal bs a with
  | none => simp
  | some w =>
    have := h (a, w) (lookup_mem bs a w hl)
    simpa using this

theorem lookup_getD_zero_of_sum_zero (bs : List (Address × ℤ)) (a : Address)
    (h : ∀ x ∈ bs, 0 ≤ x.2) (hs : sumBal bs = 0) : (lookupBal bs a).getD 0 = 0 := by
  cases hl : lookupBal bs a with
  | none => simp
  | some w =>
    have h1 : 0 ≤ w := by simpa using h (a, w) (lookup_mem bs a w hl)
    have h2 : w ≤ sumBal bs := lookup_le_sumBal bs a w h hl
    simp only [Option.getD_some]
    omega

theorem sumBal_mint (p : Pair) (a : Address) (v : ℤ) :
    sumBal (p.mint a v).balances = sumBal p.balances + v := by
  rw [mint_balances, sumBal_setBal]
  ring

theorem sumBal_burn (p : Pair) (a : Address) (v : ℤ) :
    sumBal (p.burn a v).balances = sumBal p.balances - v := by
  rw [burn_balances, sumBal_setBal]
  ring

theorem nonneg_mint {p : Pair} {a : Address} {v : ℤ}
    (hnn : ∀ x ∈ p.balances, 0 ≤ x.2) (hv : 0 ≤ v) :
    ∀ x ∈ (p.mint a v).balances, 0 ≤ x.2 := by
  intro z hz
  rw [mint_balances] at hz
  rcases mem_setBal hz with hzin | hz2
  · exact hnn z hzin
  · rw [hz2]
    exact add_nonneg (lookup_getD_nonneg _ _ hnn) hv

theorem nonneg_burn {p : Pair} {a : Address} {v : ℤ}
    (hnn : ∀ x ∈ p.balances, 0 ≤ x.2) (hv : v ≤ (lookupBal p.balances a).getD 0) :
    ∀ x ∈ (p.burn a v).balances, 0 ≤ x.2 := by
  intro z hz
  rw [burn_balances] at hz
  rcases mem_setBal hz with hzin | hz2
  · exact hnn z hzin
  · rw [hz2]
    omega

theorem Burn_none_unfold {p : Pair} {address : Address} {liquidity : ℤ}
    (hb : p.Balance address = none) :
    Pair.Burn p address liquidity = .err .insufficientLiquidityBurned := by
  unfold Pair.Burn
  rw [hb]

theorem Burn_some_unfold {p : Pair} {address : Address} {liquidity bal : ℤ}
    (hb : p.Balance address = some bal) :
    Pair.Burn p address liquidity =
      (if bal < liquidity then .err .insufficientLiquidityBurned
       else if p.totalSupply = 0 then .crash
       else if ¬ 0 < liquidity * p.reserve0 / p.totalSupply ∨
           ¬ 0 < liquidity * p.reserve1 / p.totalSupply then
         .err .insufficientLiquidityBurned
       else
         .ok ((p.burn address liquidity).update (-(liquidity * p.reserve0 / p.totalSupply))
                (-(liquidity * p.reserve1 / p.totalSupply)),
              liquidity * p.reserve0 / p.totalSupply,
              liquidity * p.reserve1 / p.totalSupply)) := by
  unfold Pair.Burn
  rw [hb]
  rfl

theorem Mint_ok_elim {p : Pair} {a : Address} {x y : ℤ} {q : Pair} {l : ℤ}
    (h : Pair.Mint p a x y = .ok (q, l)) :
    p.totalSupply = 0 ∧ 0 ≤ x * y ∧ 0 < l ∧ l = startingSupply x y ∧
      q = ((p.mint addressZero minimumLiquidity).mint a l).update x y := by
  simp only [Pair.Mint] at h
  split_ifs at h with h1 h2 h3
  simp only [Outcome.ok.injEq, Prod.mk.injEq] at h
  obtain ⟨hq, hl⟩ := h
  subst hl
  exact ⟨h1, by omega, h3, rfl, hq.symm⟩

theorem Burn_ok_elim {p : Pair} {a : Address} {l : ℤ} {q : Pair} {a0 a1 : ℤ}
    (h : Pair.Burn p a l = .ok (q, a0, a1)) :
    ∃ bal, p.Balance a = some bal ∧ l ≤ bal ∧ p.totalSupply ≠ 0 ∧
      a0 = l * p.reserve0 / p.totalSupply ∧ a1 = l * p.reserve1 / p.totalSupply ∧
      0 < a0 ∧ 0 < a1 ∧ q = (p.burn a l).update (-a0) (-a1) := by
  cases hb : p.Balance a with
  | none =>
    rw [Burn_none_unfold hb] at h
    exact Outcome.noConfusion h
  | some bal =>
    rw [Burn_some_unfold hb] at h
    split_ifs at h with h1 h2 h3
    simp only [Outcome.ok.injEq, Prod.mk.injEq] at h
    obtain ⟨hq, ha0, ha1⟩ := h
    subst ha0
    subst ha1
    push_neg at h3
    exact ⟨bal, rfl, by omega, h2, rfl, rfl, h3.1, h3.2, hq.symm⟩

theorem Swap_ok_elim {p : Pair} {i0 i1 o0 o1 : ℤ} {q : Pair} {a0 a1 : ℤ}
    (h : Pair.Swap p i0 i1 o0 o1 = .ok (q, a0, a1)) :
    a0 = i0 - o0 ∧ a1 = i1 - o1 ∧ o0 ≤ p.reserve0 ∧ o1 ≤ p.reserve1 ∧
      ¬ ((a0 + p.reserve0) * 1000 - i0 * 3) * ((a1 + p.reserve1) * 1000 - i1 * 3) <
          p.reserve0 * p.reserve1 * 1000000 ∧
      q = p.update a0 a1 := by
  simp only [Pair.Swap] at h
  split_ifs at h with h1 h2 h3 h4
  simp only [Outcome.ok.injEq, Prod.mk.injEq] at h
  obtain ⟨hq, ha0, ha1⟩ := h
  subst ha0
  subst ha1
  push_neg at h2
  exact ⟨rfl, rfl, h2.1, h2.2, h4, hq.symm⟩

theorem supplyInv_mint_step {p q : Pair} {a : Address} {x y l : ℤ}
    (hInv : SupplyInv p) (h : Pair.Mint p a x y = .ok (q, l)) : SupplyInv q := by
  obtain ⟨hnn, hsum⟩ := hInv
  obtain ⟨h0, hxy, hl, hls, rfl⟩ := Mint_ok_elim h
  constructor
  · rw [update_balances]
    exact nonneg_mint (nonneg_mint hnn (by norm_num [minimumLiquidity])) (le_of_lt hl)
  · rw [update_balances, update_supply, sumBal_mint, sumBal_mint, mint_supply, mint_supply, hsum]

theorem supplyInv_burn_step {p q : Pair} {a : Address} {l a0 a1 : ℤ}
    (hInv : SupplyInv p) (h : Pair.Burn p a l = .ok (q, a0, a1)) : SupplyInv q := by
  obtain ⟨hnn, hsum⟩ := hInv
  obtain ⟨bal, hb, hlb, hS0, ha0, ha1, hp0, hp1, rfl⟩ := Burn_ok_elim h
  have hlook : lookupBal p.balances a = some bal := by rw [← Balance_eq_lookup, hb]
  have hgd : (lookupBal p.balances a).getD 0 = bal := by rw [hlook]; rfl
  constructor
  · rw [update_balances]
    exact nonneg_burn hnn (by omega)
  · rw [update_balances, update_supply, sumBal_burn, burn_supply, hsum]

theorem supplyInv_swap_step {p q : Pair} {i0 i1 o0 o1 a0 a1 : ℤ}
    (hInv : SupplyInv p) (h : Pair.Swap p i0 i1 o0 o1 = .ok (q, a0, a1)) : SupplyInv q := by
  obtain ⟨hnn, hsum⟩ := hInv
  obtain ⟨_, _, _, _, _, rfl⟩ := Swap_ok_elim h
  constructor
  · rw [update_balances]
    exact hnn
  · rw [update_balances, update_supply, hsum]

theorem reach_supplyInv {p : Pair} (h : Reach p) : SupplyInv p := by
  induction h with
  | init => exact ⟨(by intro x hx; cases hx), rfl⟩
  | step hp hs ih =>
    cases hs with
    | mint h => exact supplyInv_mint_step ih h
    | burn h => exact supplyInv_burn_step ih h
    | swap h => exact supplyInv_swap_step ih h

theorem reservesNN_mint_step {p q : Pair} {a : Address} {x y l : ℤ}
    (hx : 0 ≤ x) (hy : 0 ≤ y) (hr0 : 0 ≤ p.reserve0) (hr1 : 0 ≤ p.reserve1)
    (h : Pair.Mint p a x y = .ok (q, l)) : 0 ≤ q.reserve0 ∧ 0 ≤ q.reserve1 := by
  obtain ⟨_, _, _, _, rfl⟩ := Mint_ok_elim h
  constructor
  · rw [update_reserve0, mint_reserve0, mint_reserve0]
    omega
  · rw [update_reserve1, mint_reserve1, mint_reserve1]
    omega

theorem reservesNN_burn_step {p q : Pair} {a : Address} {l a0 a1 : ℤ}
    (hInv : SupplyInv p) (hr0 : 0 ≤ p.reserve0) (hr1 : 0 ≤ p.reserve1)
    (h : Pair.Burn p a l = .ok (q, a0, a1)) : 0 ≤ q.reserve0 ∧ 0 ≤ q.reserve1 := by
  obtain ⟨hnn, hsum⟩ := hInv
  obtain ⟨bal, hb, hlb, hS0, ha0, ha1, hp0, hp1, rfl⟩ := Burn_ok_elim h
  have hlook : lookupBal p.balances a = some bal := by rw [← Balance_eq_lookup, hb]
  have hBalLe : bal ≤ p.totalSupply := by
    rw [← hsum]
    exact lookup_le_sumBal _ _ _ hnn hlook
  have hSnn : 0 ≤ sumBal p.balances := sumBal_nonneg p.balances hnn
  have hSpos : 0 < p.totalSupply := by omega
  have hl_le : l ≤ p.totalSupply := le_trans hlb hBalLe
  have key0 : a0 ≤ p.reserve0 := by
    rw [ha0]
    calc l * p.reserve0 / p.totalSupply
        ≤ p.totalSupply * p.reserve0 / p.totalSupply :=
          Int.ediv_le_ediv hSpos (mul_le_mul_of_nonneg_right hl_le hr0)
      _ = p.reserve0 := Int.mul_ediv_cancel_left _ (ne_of_gt hSpos)
  have key1 : a1 ≤ p.reserve1 := by
    rw [ha1]
    calc l * p.reserve1 / p.totalSupply
        ≤ p.totalSupply * p.reserve1 / p.totalSupply :=
          Int.ediv_le_ediv hSpos (mul_le_mul_of_nonneg_right hl_le hr1)
      _ = p.reserve1 := Int.mul_ediv_cancel_left _ (ne_of_gt hSpos)
  constructor
  · rw [update_reserve0, burn_reserve0]
    omega
  · rw [update_reserve1, burn_reserve1]
    omega

theorem reservesNN_swap_step {p q : Pair} {i0 i1 o0 o1 a0 a1 : ℤ}
    (h0 : 0 ≤ i0) (h1 : 0 ≤ i1) (_hr0 : 0 ≤ p.reserve0) (_hr1 : 0 ≤ p.reserve1)
    (h : Pair.Swap p i0 i1 o0 o1 = .ok (q, a0, a1)) : 0 ≤ q.reserve0 ∧ 0 ≤ q.reserve1 := by
  obtain ⟨rfl, rfl, ho0, ho1, _, rfl⟩ := Swap_ok_elim h
  constructor
  · rw [update_reserve0]
    omega
  · rw [update_reserve1]
    omega

theorem reachNN_inv {p : Pair} (h : ReachNN p) :
    SupplyInv p ∧ 0 ≤ p.reserve0 ∧ 0 ≤ p.reserve1 := by
  induction h with
  | init => exact ⟨⟨(by intro x hx; cases hx), rfl⟩, le_refl 0, le_refl 0⟩
  | step hp hs ih =>
    obtain ⟨hInv, hr0, hr1⟩ := ih
    cases hs with
    | mint hx hy h =>
      exact ⟨supplyInv_mint_step hInv h, reservesNN_mint_step hx hy hr0 hr1 h⟩
    | burn hl h =>
      exact ⟨supplyInv_burn_step hInv h, reservesNN_burn_step hInv hr0 hr1 h⟩
    | swap h0 h1 h2 h3 h =>
      exact ⟨supplyInv_swap_step hInv h, reservesNN_swap_step h0 h1 hr0 hr1 h⟩

theorem zeroFloor_mint_step {p q : Pair} {a : Address} {x y l : ℤ}
    (hnn : ∀ z ∈ p.balances, 0 ≤ z.2)
    (h : Pair.Mint p a x y = .ok (q, l)) :
    1000 ≤ (lookupBal q.balances addressZero).getD 0 := by
  obtain ⟨h0, hxy, hl, hls, rfl⟩ := Mint_ok_elim h
  rw [update_balances, mint_balances, mint_balances]
  have hz0 : 0 ≤ (lookupBal p.balances addressZero).getD 0 := lookup_getD_nonneg _ _ hnn
  by_cases ha : a = addressZero
  · subst ha
    simp only [lookupBal_setBal_self, Option.getD_some, minimumLiquidity]
    omega
  · have hza : addressZero ≠ a := fun hh => ha hh.symm
    rw [lookupBal_setBal_ne _ _ _ _ hza, lookupBal_setBal_self]
    simp only [Option.getD_some, minimumLiquidity]
    omega

theorem zeroFloor_burn_step {p q : Pair} {a : Address} {l a0 a1 : ℤ}
    (ha : a ≠ addressZero)
    (hfloor : p.totalSupply = 0 ∨ 1000 ≤ (lookupBal p.balances addressZero).getD 0)
    (h : Pair.Burn p a l = .ok (q, a0, a1)) :
    1000 ≤ (lookupBal q.balances addressZero).getD 0 := by
  obtain ⟨bal, hb, hlb, hS0, _, _, _, _, rfl⟩ := Burn_ok_elim h
  rw [update_balances, burn_balances, lookupBal_setBal_ne _ _ _ _ (fun hh => ha hh.symm)]
  rcases hfloor with h0 | hfl
  · exact absurd h0 hS0
  · exact hfl

theorem reachNZ_inv {p : Pair} (h : ReachNZ p) :
    SupplyInv p ∧ (p.totalSupply = 0 ∨ 1000 ≤ (lookupBal p.balances addressZero).getD 0) := by
  induction h with
  | init => exact ⟨⟨(by intro x hx; cases hx), rfl⟩, Or.inl rfl⟩
  | step hp hs ih =>
    obtain ⟨hInv, hfloor⟩ := ih
    cases hs with
    | mint h =>
      exact ⟨supplyInv_mint_step hInv h, Or.inr (zeroFloor_mint_step hInv.1 h)⟩
    | burn ha h =>
      exact ⟨supplyInv_burn_step hInv h, Or.inr (zeroFloor_burn_step ha hfloor h)⟩
    | swap h =>
      refine ⟨supplyInv_swap_step hInv h, ?_⟩
      obtain ⟨_, _, _, _, _, rfl⟩ := Swap_ok_elim h
      rw [update_balances, update_supply]
      exact hfloor

theorem sqrtFourMillion : Int.sqrt (2000 * 2000 : ℤ) = 2000 := by
  rw [Int.sqrt_eq]
  rfl

theorem mintA_eq : Pair.Mint zeroPair addrA 2000 2000 = .ok (pairA, 1000) := by
  unfold Pair.Mint startingSupply
  rw [sqrtFourMillion]
  decide

theorem mintZ_eq : Pair.Mint zeroPair addressZero 2000 2000 = .ok (pairZ, 1000) := by
  unfold Pair.Mint startingSupply
  rw [sqrtFourMillion]
  decide

theorem burnZero_eq : Pair.Burn pairA addressZero 1000 = .ok (pairB, 1000, 1000) := by decide

theorem swapNeg_eq : Pair.Swap pairA (-2001) 1000000 0 1 = .ok (pairC, -2001, 999999) := by decide

theorem reach_pairA : Reach pairA := Reach.step Reach.init (Step.mint mintA_eq)

theorem reach_pairB : Reach pairB := Reach.step reach_pairA (Step.burn burnZero_eq)

theorem reach_pairC : Reach pairC := Reach.step reach_pairA (Step.swap swapNeg_eq)

theorem reachNN_pairA : ReachNN pairA :=
  ReachNN.step ReachNN.init (StepNN.mint (by norm_num) (by norm_num) mintA_eq)

theorem reachNZ_pairA : ReachNZ pairA := ReachNZ.step ReachNZ.init (StepNZ.mint mintA_eq)

/-- C1: the claim says that after a successful CreatePair(A, B) the registry
holds exactly one record for the unordered pair, under the canonical sorted
key, that CreatePair in either order then fails with PairExists, and that Pair
resolves in either order. The code violates this for unsorted creation
arguments: addPair discards the result of key.Revert(), files the record under
the unsorted key {1,0}, both lookups then miss, and a duplicate
CreatePair(0, 1) succeeds, leaving two records for the same unordered pair. -/
theorem C1_create_pair_unsorted_misfiled :
    UniswapV2.CreatePair New 1 0 = .ok (regUnsorted, (0, true)) ∧
    pairKey.isSorted { TokenA := 1, TokenB := 0 } = false ∧
    regUnsorted.pairs = [({ TokenA := 1, TokenB := 0 }, 0)] ∧
    UniswapV2.Pair regUnsorted 1 0 = none ∧
    UniswapV2.Pair regUnsorted 0 1 = none ∧
    UniswapV2.CreatePair regUnsorted 0 1 = .ok (regDup, (1, false)) := by decide

/-- C2: the claim says Mint on a pool with positive totalSupply succeeds with
the proportional liquidity min(totalSupply*amount0/reserve0,
totalSupply*amount1/reserve1). In the code that branch shadows the named
return value, so the subsequent internal mint dereferences a nil big.Int and
the call panics: after a first successful Mint, a second Mint crashes instead
of returning the proportional amount (here min(2000*1000/2000, 2000*1000/2000)
= 1000). -/
theorem C2_second_mint_crashes :
    Pair.Mint zeroPair addrA 2000 2000 = .ok (pairA, 1000) ∧
    min (pairA.totalSupply * 1000 / pairA.reserve0)
        (pairA.totalSupply * 1000 / pairA.reserve1) = 1000 ∧
    Pair.Mint pairA addrB 1000 1000 = .crash :=
  ⟨mintA_eq, by decide, by decide⟩

/-- C3: Swap fails with InsufficientOutputAmount when neither output is
positive, otherwise with InsufficientLiquidity when either output exceeds its
reserve, otherwise with InsufficientInputAmount when neither net amount is
positive, otherwise with K exactly when the fee-adjusted product is below
reserve0*reserve1*1000000, and otherwise succeeds, adds the net amounts to the
reserves and returns them; every accepted swap satisfies the fee-floor
inequality with respect to the pre-trade reserves. -/
theorem C3_swap_error_order_and_fee_floor (p : Pair)
    (amount0In amount1In amount0Out amount1Out : ℤ) :
    SwapClaim p amount0In amount1In amount0Out amount1Out := by
  constructor
  · rfl
  · intro q a0 a1 h
    obtain ⟨rfl, rfl, _, _, hK, rfl⟩ := Swap_ok_elim h
    exact not_lt.mp hK

/-- Witness for C3: a concrete accepted swap on pairA. -/
theorem C3_swap_error_order_and_fee_floor_witness : SwapClaim pairA 0 100 90 0 :=
  C3_swap_error_order_and_fee_floor pairA 0 100 90 0

/-- C4 counterexample: the claim promises that after a successful first Mint
the zero address holds exactly 1000, for every minting address, and that Mint
fails with InsufficientLiquidityMinted exactly when floor(sqrt(amount0*amount1))
is at most 1000. Minting to the zero address itself leaves it holding 2000,
and a negative product makes big.Int Sqrt panic rather than return the error. -/
theorem C4_counterexample :
    Pair.Mint zeroPair addressZero 2000 2000 = .ok (pairZ, 1000) ∧
    (lookupBal pairZ.balances addressZero).getD 0 = 2000 ∧
    Pair.Mint zeroPair addrA 1 (-1) = .crash :=
  ⟨mintZ_eq, by decide, by decide⟩

/-- C4 (amended): on a reachable pool with totalSupply = 0, for a non-negative
amount product and a minting address other than the zero address, Mint fails
with InsufficientLiquidityMinted exactly when floor(sqrt(amount0*amount1)) -
1000 is non-positive; on success it returns that liquidity, the zero address
afterwards holds exactly 1000, totalSupply equals floor(sqrt(amount0*amount1)),
and the amounts are added to the reserves. -/
theorem C4_first_mint_amended (p : Pair) (address : Address) (amount0 amount1 : ℤ)
    (hp : Reach p) (h0 : p.totalSupply = 0) (hxy : 0 ≤ amount0 * amount1)
    (ha : address ≠ addressZero) : MintFirstClaim p address amount0 amount1 := by
  obtain ⟨hnn, hsum⟩ := reach_supplyInv hp
  have hz0 : (lookupBal p.balances addressZero).getD 0 = 0 :=
    lookup_getD_zero_of_sum_zero _ _ hnn (by omega)
  unfold MintFirstClaim
  have hM : Pair.Mint p address amount0 amount1 =
      (if ¬ 0 < startingSupply amount0 amount1 then .err .insufficientLiquidityMinted
       else .ok (((p.mint addressZero minimumLiquidity).mint address
                    (startingSupply amount0 amount1)).update amount0 amount1,
                 startingSupply amount0 amount1)) := by
    unfold Pair.Mint
    rw [if_pos h0, if_neg (by omega)]
  rw [hM]
  by_cases hl : 0 < startingSupply amount0 amount1
  · rw [if_neg (not_not_intro hl)]
    refine ⟨?_, ?_, ?_⟩
    · apply iff_of_false (by simp)
      unfold startingSupply minimumLiquidity at hl
      omega
    · simp
    · intro q l hok
      simp only [Outcome.ok.injEq, Prod.mk.injEq] at hok
      obtain ⟨hq, hlq⟩ := hok
      subst hlq
      refine ⟨rfl, ?_, ?_, ?_, ?_⟩
      · rw [← hq, Balance_eq_lookup, update_balances, mint_balances, mint_balances]
        rw [lookupBal_setBal_ne _ _ _ _ (fun hh => ha hh.symm), lookupBal_setBal_self, hz0]
        norm_num [minimumLiquidity]
      · rw [← hq, update_supply, mint_supply, mint_supply, h0]
        unfold startingSupply minimumLiquidity
        ring
      · rw [← hq, update_reserve0, mint_reserve0, mint_reserve0]
      · rw [← hq, update_reserve1, mint_reserve1, mint_reserve1]
  · rw [if_pos hl]
    refine ⟨?_, ?_, ?_⟩
    · apply iff_of_true rfl
      unfold startingSupply minimumLiquidity at hl
      omega
    · simp
    · intro q l hok
      exact Outcome.noConfusion hok

/-- Witness for C4 (amended): the first Mint on a fresh pool. -/
theorem C4_first_mint_amended_witness : MintFirstClaim zeroPair addrA 2000 2000 :=
  C4_first_mint_amended zeroPair addrA 2000 2000 Reach.init rfl (by norm_num) (by decide)

/-- C5: on a pool with positive totalSupply, Burn fails with
InsufficientLiquidityBurned exactly when the address has no balance entry, the
liquidity exceeds the held balance, or either floor(liquidity*reserve_i/
totalSupply) is non-positive; it fails with no other error, never crashes, and
on success returns the floor amounts and performs exactly
balances[address] -= liquidity, totalSupply -= liquidity,
reserve0 -= amount0, reserve1 -= amount1. A failing Burn returns no state, so
the pool is untouched. -/
theorem C5_burn_characterization (p : Pair) (address : Address) (liquidity : ℤ)
    (hS : 0 < p.totalSupply) : BurnClaim p address liquidity := by
  have hS0 : p.totalSupply ≠ 0 := ne_of_gt hS
  unfold BurnClaim
  cases hb : p.Balance address with
  | none =>
    rw [Burn_none_unfold hb]
    simp
  | some bal =>
    have hlook : lookupBal p.balances address = some bal := by rw [← Balance_eq_lookup, hb]
    rw [Burn_some_unfold hb]
    by_cases h1 : bal < liquidity
    · rw [if_pos h1]
      refine ⟨iff_of_true rfl (Or.inr (Or.inl (by simpa using h1))), ?_, ?_, ?_⟩
      · intro e he
        exact (Outcome.err.inj he).symm
      · simp
      · intro q a0 a1 hok
        exact Outcome.noConfusion hok
    · rw [if_neg h1, if_neg hS0]
      by_cases h3 : ¬ 0 < liquidity * p.reserve0 / p.totalSupply ∨
          ¬ 0 < liquidity * p.reserve1 / p.totalSupply
      · rw [if_pos h3]
        refine ⟨iff_of_true rfl ?_, ?_, ?_, ?_⟩
        · rcases h3 with h3 | h3
          · exact Or.inr (Or.inr (Or.inl (by omega)))
          · exact Or.inr (Or.inr (Or.inr (by omega)))
        · intro e he
          exact (Outcome.err.inj he).symm
        · simp
        · intro q a0 a1 hok
          exact Outcome.noConfusion hok
      · rw [if_neg h3]
        push_neg at h3
        refine ⟨?_, ?_, ?_, ?_⟩
        · apply iff_of_false (by simp)
          intro hc
          rcases hc with hc | hc | hc | hc
          · exact Option.noConfusion hc
          · simp at hc
            omega
          · omega
          · omega
        · intro e he
          exact Outcome.noConfusion he
        · simp
        · intro q a0 a1 hok
          simp only [Outcome.ok.injEq, Prod.mk.injEq] at hok
          obtain ⟨hq, ha0, ha1⟩ := hok
          subst ha0
          subst ha1
          refine ⟨rfl, rfl, ?_, ?_, ?_, ?_⟩
          · rw [← hq, update_reserve0, burn_reserve0]
            ring
          · rw [← hq, update_reserve1, burn_reserve1]
            ring
          · rw [← hq, update_supply, burn_supply]
          · rw [← hq, update_balances, burn_balances, hlook]

/-- Witness for C5: a concrete successful Burn on pairA. -/
theorem C5_burn_characterization_witness : BurnClaim pairA addrA 500 :=
  C5_burn_characterization pairA addrA 500 (by decide)

/-- C6 counterexample: the claim says that once totalSupply is positive no
operation, including one invoked with the zero address, ever brings the zero
address balance below 1000. Burning 1000 liquidity from the zero address on a
reachable pool leaves it at 0 while totalSupply stays positive. -/
theorem C6_counterexample :
    Reach pairB ∧ 0 < pairB.totalSupply ∧
      (lookupBal pairB.balances addressZero).getD 0 < 1000 :=
  ⟨reach_pairB, by decide, by decide⟩

/-- C6 (amended): in every state reachable without burning from the zero
address, once totalSupply is positive the zero address holds at least 1000;
only a Burn invoked with the zero address itself can reduce that floor. -/
theorem C6_zero_floor_amended {p : Pair} (hp : ReachNZ p) (hS : 0 < p.totalSupply) :
    1000 ≤ (lookupBal p.balances addressZero).getD 0 := by
  obtain ⟨_, hz⟩ := reachNZ_inv hp
  rcases hz with h | h
  · omega
  · exact h

/-- Witness for C6 (amended): pairA after the first mint. -/
theorem C6_zero_floor_amended_witness :
    1000 ≤ (lookupBal pairA.balances addressZero).getD 0 :=
  C6_zero_floor_amended reachNZ_pairA (by decide)

/-- C7: the claim says the views Pair(A,B) and Pair(B,A) of a created pair are
backed by the same record in either creation order. For a pair created in
sorted order both lookups do share record index 0, one of them reversed; but
for a pair created with unsorted arguments the addPair bug files the record
under the unsorted key and both lookups return nil, so no view of the created
record exists at all. -/
theorem C7_views_lost_after_unsorted_creation :
    UniswapV2.CreatePair New 0 1 = .ok (regSorted, (0, false)) ∧
    UniswapV2.Pair regSorted 0 1 = some (0, false) ∧
    UniswapV2.Pair regSorted 1 0 = some (0, true) ∧
    UniswapV2.CreatePair New 1 0 = .ok (regUnsorted, (0, true)) ∧
    UniswapV2.pair regUnsorted { TokenA := 1, TokenB := 0 } = none ∧
    UniswapV2.pair regUnsorted { TokenA := 0, TokenB := 1 } = none := by decide

/-- C8: in every reachable pool state, totalSupply equals the sum of the
balance map, absent entries counting as zero. -/
theorem C8_supply_is_balance_sum {p : Pair} (hp : Reach p) :
    sumBal p.balances = p.totalSupply :=
  (reach_supplyInv hp).2

/-- Witness for C8: the state after the first mint. -/
theorem C8_supply_is_balance_sum_witness : sumBal pairA.balances = pairA.totalSupply :=
  C8_supply_is_balance_sum reach_pairA

/-- C9 counterexample: the claim says reserves stay non-negative under
arbitrary big-integer arguments including negative swap inputs. A swap with
amount0In = -2001 on a reachable pool with reserves 2000/2000 passes every
guard, including the K check, and leaves reserve0 = -1. -/
theorem C9_counterexample : Reach pairC ∧ pairC.reserve0 < 0 :=
  ⟨reach_pairC, by decide⟩

/-- C9 (amended): in every state reachable using only non-negative operation
arguments, both reserves are non-negative. -/
theorem C9_reserves_nonneg_amended {p : Pair} (hp : ReachNN p) :
    0 ≤ p.reserve0 ∧ 0 ≤ p.reserve1 :=
  (reachNN_inv hp).2

/-- Witness for C9 (amended): pairA reached with non-negative arguments. -/
theorem C9_reserves_nonneg_amended_witness : 0 ≤ pairA.reserve0 ∧ 0 ≤ pairA.reserve1 :=
  C9_reserves_nonneg_amended reachNN_pairA

/-- C10 counterexample: the claim says Balance returns zero for an address
that never held liquidity; the code returns nil (no value), which is distinct
from a stored zero balance. -/
theorem C10_counterexample :
    Pair.Balance pairA addrB = none ∧ Pair.Balance pairA addrB ≠ some 0 := by decide

/-- C10 (amended): Balance returns nil exactly for addresses with no stored
entry and otherwise a copy of the stored balance value; the returned big.Int
is freshly allocated in the source, so caller-side mutation cannot reach the
pool (a pointer-level fact outside this value-level model). -/
theorem C10_balance_amended (p : Pair) (address : Address) :
    (Pair.Balance p address = none ↔ lookupBal p.balances address = none) ∧
    ∀ v, lookupBal p.balances address = some v → Pair.Balance p address = some v := by
  unfold Pair.Balance
  cases h : lookupBal p.balances address with
  | none => simp
  | some w => simp

/-- Witness for C10 (amended): the stored balance of addrA in pairA. -/
theorem C10_balance_amended_witness : Pair.Balance pairA addrA = some 1000 :=
  (C10_balance_amended pairA addrA).2 1000 (by decide)
